import Mathlib

/-!
# prolog_mcp: the three tool handlers of `main.go`

A shallow embedding of the `query`, `exec` and `discover` handlers registered in
`main`. The Prolog engine (`github.com/ichiban/prolog`), `context`, `errors`, `fmt`
and `reflect` are external collaborators: the engine is a record of operations over
an abstract state, and every call a handler makes on a collaborator is appended to a
call log, so that properties such as "no engine call", "closed exactly once" or
"cancel was invoked" are statements about the log of a run.
-/

namespace PrologMcp

/-! ## Go values, errors and contexts -/

/-- Go error values as the handlers see them: the `context` sentinels, a leaf error
carrying a diagnostic text, and the `*fmt.wrapError` built by `fmt.Errorf` with `%w`
(its message and the wrapped error). -/
inductive GoError where
  | deadlineExceeded
  | canceled
  | errorString (s : String)
  | wrapError (msg : String) (err : GoError)
deriving DecidableEq, Repr

namespace GoError

/-- The method `Error()`. -/
def Error : GoError → String
  | deadlineExceeded => "context deadline exceeded"
  | canceled => "context canceled"
  | errorString s => s
  | wrapError msg _ => msg

/-- The function `errors.Unwrap`. -/
def Unwrap : GoError → Option GoError
  | wrapError _ err => some err
  | _ => none

end GoError

/-- The function `errors.Is(err, target)`: walks the `Unwrap` chain of `err` comparing
each link with `target`. -/
def errorsIs : GoError → GoError → Bool
  | GoError.wrapError msg inner, target =>
    if GoError.wrapError msg inner = target then true else errorsIs inner target
  | err, target => decide (err = target)

/-- The call `fmt.Errorf(format ++ "%w", err)`: every format string of `main.go` ends
in the verb `%w`, so `format` is the text in front of it. -/
def Errorf (format : String) (err : GoError) : GoError :=
  GoError.wrapError (format ++ err.Error) err

/-- A `context.Context`, as far as the handlers use one: its deadline (nanoseconds,
`none` when it has none) and whether it is already done. -/
structure Context where
  deadline : Option Nat
  done : Bool
deriving DecidableEq, Repr

/-- The value `context.Background()`: no deadline, never done. -/
def Context.Background : Context := ⟨none, false⟩

/-- The constant `time.Second`, in nanoseconds. -/
def Second : Nat := 1000000000

/-- The call `context.WithTimeout(parent, timeout)` made at time `now`: the child
expires at `now + timeout` unless the parent expires earlier. -/
def WithTimeout (now : Nat) (parent : Context) (timeout : Nat) : Context :=
  match parent.deadline with
  | some cur => if cur < now + timeout then ⟨some cur, parent.done⟩ else ⟨some (now + timeout), parent.done⟩
  | none => ⟨some (now + timeout), parent.done⟩

/-- Values of type `any` that reach the handlers: request arguments and the Go values
a solution binds its variables to (floating point values are left out). -/
inductive GoValue where
  | null
  | str (s : String)
  | int (i : Int)
  | bool (b : Bool)
  | list (xs : List GoValue)

mutual
/-- The verb `%v` of `fmt` on a value. -/
def GoValue.fmtV : GoValue → String
  | GoValue.null => "<nil>"
  | GoValue.str s => s
  | GoValue.int i => toString i
  | GoValue.bool b => toString b
  | GoValue.list xs => "[" ++ GoValue.fmtElems xs ++ "]"
/-- The elements of a slice under `%v`, separated by one space. -/
def GoValue.fmtElems : List GoValue → String
  | [] => ""
  | [x] => GoValue.fmtV x
  | x :: y :: rest => GoValue.fmtV x ++ " " ++ GoValue.fmtElems (y :: rest)
end

/-- A `map[string]any`: its entries. -/
abbrev GoMap := List (String × GoValue)

/-- The order of two keys as `fmt` sorts them: lexicographic on the characters. -/
def keyLess : List Char → List Char → Bool
  | [], [] => false
  | [], _ :: _ => true
  | _ :: _, [] => false
  | a :: as, b :: bs =>
    if a.toNat < b.toNat then true else if b.toNat < a.toNat then false else keyLess as bs

/-- Insertion of one entry into a list of entries ordered by key. -/
def insertByKey (e : String × GoValue) : GoMap → GoMap
  | [] => [e]
  | x :: xs => if keyLess e.1.toList x.1.toList then e :: x :: xs else x :: insertByKey e xs

/-- The entries ordered by key, the order in which `fmt` prints a map. -/
def sortByKey (m : GoMap) : GoMap := m.foldr insertByKey []

/-- The verb `%v` on a `map[string]any`. -/
def fmtMap (m : GoMap) : String :=
  "map[" ++ " ".intercalate ((sortByKey m).map (fun e => e.1 ++ ":" ++ e.2.fmtV)) ++ "]"

/-- The call `fmt.Sprintf("%v", allSolutions)` on a `[]map[string]any` (a nil slice
prints like an empty one). -/
def sprintSolutions (allSolutions : List GoMap) : String :=
  "[" ++ " ".intercalate (allSolutions.map fmtMap) ++ "]"

/-- The call `fmt.Sprintf("%v", *predicates)` on a `[]string`. -/
def sprintStrings (predicates : List String) : String :=
  "[" ++ " ".intercalate predicates ++ "]"

/-! ## The engine, requests and runs -/

/-- The operations of the engine `p` and of the iterator `solutions` the handlers
call, over an abstract engine state `σ`. `QueryContext` and `ExecContext` return the
error (`none` for nil); `Scan` returns the error or the content it stored in the
fresh map it was given. -/
structure Engine (σ : Type) where
  QueryContext : Context → String → σ → Option GoError × σ
  Next : σ → Bool × σ
  Scan : σ → Except GoError GoMap × σ
  Err : σ → Option GoError
  Close : σ → σ
  ExecContext : Context → String → σ → Option GoError × σ

/-- A `mcp.CallToolRequest`: the map `request.Params.Arguments` (`none` for an absent
key). -/
structure CallToolRequest where
  Arguments : String → Option GoValue

/-- A call a handler makes on a collaborator. -/
inductive Call where
  | withTimeout (parent : Context) (timeout : Nat)
  | cancel
  | queryContext (ctx : Context) (query : String) (opened : Bool)
  | next
  | scan
  | err
  | close
  | execContext (ctx : Context) (program : String)
  | fieldByName (path : List String)
deriving DecidableEq, Repr

/-- How a handler ends: with the pair `(*mcp.CallToolResult, error)` it returns (a
text result is its text), or with a run-time panic. -/
inductive Outcome where
  | ret (result : Option String) (err : Option GoError)
  | panic
deriving DecidableEq, Repr

/-- A finished run of a handler: the outcome, the calls made in order, and the engine
state left behind. -/
structure Run (σ : Type) where
  outcome : Outcome
  calls : List Call
  state : σ

/-! ## The query handler -/

/-- How the loop `for solutions.Next()` ends: by the early return on a `Scan` error,
or by `Next()` returning false with the solutions gathered. -/
inductive LoopEnd (σ : Type) where
  | scanFailed (err : GoError) (st : σ) (calls : List Call)
  | exhausted (allSolutions : List GoMap) (st : σ) (calls : List Call)

/-- The loop `for solutions.Next() ... Scan ... append`, with a bound on the number
of iterations; `none` when the bound is reached. -/
def iterate {σ : Type} (p : Engine σ) : Nat → σ → List GoMap → List Call → Option (LoopEnd σ)
  | 0, _, _, _ => none
  | fuel + 1, st, allSolutions, calls =>
    match p.Next st with
    | (false, st1) => some (LoopEnd.exhausted allSolutions st1 (calls ++ [Call.next]))
    | (true, st1) =>
      match p.Scan st1 with
      | (Except.error err, st2) =>
        some (LoopEnd.scanFailed err st2 (calls ++ [Call.next, Call.scan]))
      | (Except.ok solutionMap, st2) =>
        iterate p fuel st2 (allSolutions ++ [solutionMap]) (calls ++ [Call.next, Call.scan])

/-- The handler of the tool `query`. `now` is the time of the call and `fuel` bounds
the iterations of the loop. The deferred `solutions.Close()` and `cancel()` run, in
that order, on every return after their `defer` statement. -/
def queryHandler {σ : Type} (p : Engine σ) (now fuel : Nat) (ctx : Context)
    (request : CallToolRequest) (st : σ) : Option (Run σ) :=
  match request.Arguments "query" with
  | some (GoValue.str query) =>
    let queryCtx := WithTimeout now ctx (15 * Second)
    match p.QueryContext queryCtx query st with
    | (some err, st1) =>
      let calls := [Call.withTimeout ctx (15 * Second), Call.queryContext queryCtx query false,
        Call.cancel]
      if errorsIs err GoError.deadlineExceeded then
        some ⟨Outcome.ret none (some (Errorf "query timed out after 15 seconds: " err)), calls, st1⟩
      else
        some ⟨Outcome.ret none (some (Errorf "query error: " err)), calls, st1⟩
    | (none, st1) =>
      let calls := [Call.withTimeout ctx (15 * Second), Call.queryContext queryCtx query true]
      match iterate p fuel st1 [] calls with
      | none => none
      | some (LoopEnd.scanFailed err st2 calls2) =>
        some ⟨Outcome.ret none (some (Errorf "error scanning solution: " err)),
          calls2 ++ [Call.close, Call.cancel], p.Close st2⟩
      | some (LoopEnd.exhausted allSolutions st2 calls2) =>
        match p.Err st2 with
        | some err =>
          if errorsIs err GoError.deadlineExceeded then
            some ⟨Outcome.ret none
              (some (Errorf "query iteration timed out after 15 seconds: " err)),
              calls2 ++ [Call.err, Call.close, Call.cancel], p.Close st2⟩
          else
            some ⟨Outcome.ret none (some (Errorf "error during query iteration: " err)),
              calls2 ++ [Call.err, Call.close, Call.cancel], p.Close st2⟩
        | none =>
          some ⟨Outcome.ret (some (sprintSolutions allSolutions)) none,
            calls2 ++ [Call.err, Call.close, Call.cancel], p.Close st2⟩
  | _ => some ⟨Outcome.panic, [], st⟩

/-! ## The exec handler -/

/-- The variable `prologCtx` of `main`. -/
def prologCtx : Context := Context.Background

/-- The handler of the tool `exec`. -/
def execHandler {σ : Type} (p : Engine σ) (_ctx : Context) (request : CallToolRequest)
    (st : σ) : Run σ :=
  match request.Arguments "program" with
  | some (GoValue.str program) =>
    match p.ExecContext prologCtx program st with
    | (some err, st1) => ⟨Outcome.ret none (some err), [Call.execContext prologCtx program], st1⟩
    | (none, st1) =>
      ⟨Outcome.ret (some "Program executed successfully") none,
        [Call.execContext prologCtx program], st1⟩
  | _ => ⟨Outcome.panic, [], st⟩

/-! ## The discover handler -/

/-- The kinds of `reflect.Kind` the handler can meet. -/
inductive Kind where
  | invalid | bool | int | string | slice | struct | map | ptr | func | interface
deriving DecidableEq, Repr

/-- The method `String()` of `reflect.Kind`, which `%v` prints. -/
def Kind.toString : Kind → String
  | Kind.invalid => "invalid"
  | Kind.bool => "bool"
  | Kind.int => "int"
  | Kind.string => "string"
  | Kind.slice => "slice"
  | Kind.struct => "struct"
  | Kind.map => "map"
  | Kind.ptr => "ptr"
  | Kind.func => "func"
  | Kind.interface => "interface"

/-- What a lookup by name in `reflect` gives: a run-time panic, nothing found (the
zero Value, or `found` false), or the thing found. -/
inductive Lookup (α : Type) where
  | panics
  | zero
  | valid (x : α)
deriving DecidableEq, Repr

/-- A valid `reflect.Value` of the engine, as far as the handler inspects it: the name
of its type, its kind, whether it is addressable, and

* `fields`: for a struct, the fields `FieldByName` finds on it (promoted ones included,
  as `reflect` decides), each with the `Offset` of its `StructField`, which `reflect`
  reports relative to the struct that declares the field, and with the field's value;
* `memory`: the keys, in iteration order, of the map the runtime finds when the word at
  a given offset from the address of the value is read as a map of the table's type;
* `mapKeys`: for a map, its keys in the order `MapRange` yields them on this call. -/
inductive Value (K : Type) where
  | mk (typeName : String) (kind : Kind) (canAddr : Bool)
      (fields : List (String × Nat × Value K)) (memory : Nat → List K) (mapKeys : List K)

namespace Value

variable {K : Type}

/-- The type of the value under `%v`. -/
def TypeName : Value K → String
  | mk typeName _ _ _ _ _ => typeName

/-- The method `Kind()`. -/
def Kind : Value K → PrologMcp.Kind
  | mk _ kind _ _ _ _ => kind

/-- The method `CanAddr()`. -/
def CanAddr : Value K → Bool
  | mk _ _ canAddr _ _ _ => canAddr

/-- The method `FieldByName`: it panics on a value that is not a struct, and returns
the zero Value, for which `IsValid()` is false, when the struct has no such field. -/
def FieldByName : Value K → String → Lookup (Value K)
  | mk _ kind _ fields _ _, name =>
    if kind = PrologMcp.Kind.struct then
      match fields.lookup name with
      | some (_, field) => Lookup.valid field
      | none => Lookup.zero
    else Lookup.panics

/-- The call `v.Type().FieldByName(name)`: the `Offset` of the `StructField` found. It
panics on a type that is not a struct. -/
def TypeFieldByName : Value K → String → Lookup Nat
  | mk _ kind _ fields _ _, name =>
    if kind = PrologMcp.Kind.struct then
      match fields.lookup name with
      | some (offset, _) => Lookup.valid offset
      | none => Lookup.zero
    else Lookup.panics

/-- The keys of the map read at `UnsafeAddr() + offset`. -/
def MapAt : Value K → Nat → List K
  | mk _ _ _ _ memory _, offset => memory offset

/-- The keys `MapRange()` iterates over, in iteration order. -/
def MapRange : Value K → List K
  | mk _ _ _ _ _ mapKeys => mapKeys

/-- The value `reflect.NewAt(field.Type(), unsafe.Pointer(base.UnsafeAddr() + offset)).Elem()`:
it has the type of `field` and the content found at that address. -/
def NewAtElem (field base : Value K) (offset : Nat) : Value K :=
  mk field.TypeName field.Kind true [] (fun _ => []) (base.MapAt offset)

end Value

/-- A method found by `MethodByName`: the number of its parameters, whether it is
variadic, and the results of calling it on a key. -/
structure Method (K : Type) where
  NumIn : Nat
  IsVariadic : Bool
  Results : K → List GoValue

/-- The call `pkMethod.Call(nil)` on the key `k`: `none` for the panic of `reflect` on
too few arguments. -/
def Method.CallNil {K : Type} (m : Method K) (k : K) : Option (List GoValue) :=
  if (if m.IsVariadic then m.NumIn - 1 else m.NumIn) = 0 then some (m.Results k) else none

/-- What reflection finds on the key type of the table: the method named `String`
(`none` when `MethodByName` returns the zero Value), and the `%v` rendering of a key. -/
structure KeyType (K : Type) where
  StringMethod : Option (Method K)
  fmtV : K → String

/-- The body of the loop over the map: the descriptor of one key, `none` when the call
of the method panics. -/
def procString {K : Type} (kt : KeyType K) (k : K) : Option String :=
  match kt.StringMethod with
  | some pkMethod =>
    match pkMethod.CallNil k with
    | none => none
    | some (GoValue.str s :: _) => some s
    | some results =>
      some ("error<key=" ++ kt.fmtV k ++ ", unexpected_result=" ++
        (GoValue.list results).fmtV ++ ">")
  | none => some ("error<key=" ++ kt.fmtV k ++ ", method_not_found>")

/-- The loop `for iter.Next()`: the slice `*predicates` after iterating over the keys,
`none` when an iteration panics. -/
def collectPredicates {K : Type} (kt : KeyType K) : List K → List String → Option (List String)
  | [], predicates => some predicates
  | k :: rest, predicates =>
    match procString kt k with
    | none => none
    | some s => collectPredicates kt rest (predicates ++ [s])

/-- The handler of the tool `discover` from the addressability check on, with the
base value and the field found. The table it iterates is the one read through
`unsafe.Pointer` at `baseValue.UnsafeAddr() + structFieldDesc.Offset`. -/
def discoverFrom {K : Type} (kt : KeyType K) (baseValue proceduresField : Value K)
    (calls : List Call) : Outcome × List Call :=
  if !baseValue.CanAddr then
    (Outcome.ret none (some (GoError.errorString
      "internal error: base value for field is not addressable")), calls)
  else
    match baseValue.TypeFieldByName "procedures" with
    | Lookup.panics => (Outcome.panic, calls)
    | Lookup.zero =>
      (Outcome.ret none (some (GoError.errorString
        ("internal error: could not get StructField description for 'procedures' in type "
          ++ baseValue.TypeName))), calls)
    | Lookup.valid offset =>
      let accessibleProcedures := Value.NewAtElem proceduresField baseValue offset
      if accessibleProcedures.Kind = Kind.map then
        match collectPredicates kt accessibleProcedures.MapRange [] with
        | none => (Outcome.panic, calls)
        | some predicates => (Outcome.ret (some (sprintStrings predicates)) none, calls)
      else
        (Outcome.ret none (some (GoError.errorString
          ("procedures field is not a map, kind: " ++ accessibleProcedures.Kind.toString))),
          calls)

/-- The handler of the tool `discover`; `v` is `reflect.ValueOf(p).Elem()`. -/
def discoverHandler {K : Type} (kt : KeyType K) (v : Value K) : Outcome × List Call :=
  match v.FieldByName "procedures" with
  | Lookup.panics => (Outcome.panic, [Call.fieldByName ["procedures"]])
  | Lookup.valid proceduresField =>
    discoverFrom kt v proceduresField [Call.fieldByName ["procedures"]]
  | Lookup.zero =>
    match v.FieldByName "VM" with
    | Lookup.panics => (Outcome.panic, [Call.fieldByName ["procedures"], Call.fieldByName ["VM"]])
    | Lookup.zero =>
      (Outcome.ret none (some (GoError.errorString
        "could not find 'procedures' field (tried promotion and explicit 'VM' embed)")),
        [Call.fieldByName ["procedures"], Call.fieldByName ["VM"]])
    | Lookup.valid vmField =>
      match vmField.FieldByName "procedures" with
      | Lookup.panics =>
        (Outcome.panic, [Call.fieldByName ["procedures"], Call.fieldByName ["VM"],
          Call.fieldByName ["VM", "procedures"]])
      | Lookup.zero =>
        (Outcome.ret none (some (GoError.errorString
          "found embedded 'VM' field, but not 'procedures' field within it")),
          [Call.fieldByName ["procedures"], Call.fieldByName ["VM"],
            Call.fieldByName ["VM", "procedures"]])
      | Lookup.valid proceduresField =>
        discoverFrom kt vmField proceduresField
          [Call.fieldByName ["procedures"], Call.fieldByName ["VM"],
            Call.fieldByName ["VM", "procedures"]]

/-! ## A scripted engine -/

/-- An engine that follows a script: the state is the list of `Scan` results still to
come, `Next` reports whether one is left, and the errors of `QueryContext`, `Err` and
`ExecContext` are fixed. -/
def scriptEngine (openErr termErr execErr : Option GoError) :
    Engine (List (Except GoError GoMap)) where
  QueryContext := fun _ _ st => (openErr, st)
  Next := fun st => (!st.isEmpty, st)
  Scan := fun st =>
    match st with
    | [] => (Except.error (GoError.errorString "no current solution"), [])
    | x :: rest => (x, rest)
  Err := fun _ => termErr
  Close := fun st => st
  ExecContext := fun _ _ st => (execErr, st)

/-- A request with the single argument `name`. -/
def requestWith (name : String) (value : GoValue) : CallToolRequest :=
  ⟨fun key => if key = name then some value else none⟩

/-- A request without arguments. -/
def emptyRequest : CallToolRequest := ⟨fun _ => none⟩

/-! ## Behaviour of the iterator -/

section Behaviour

variable {σ : Type}

/-- From state `st` the iterator yields exactly the solutions `sols`, each `Scan`
succeeding, and then `Next()` returns false, leaving state `stEnd`. -/
def Enumerates (p : Engine σ) : σ → List GoMap → σ → Prop
  | st, [], stEnd => p.Next st = (false, stEnd)
  | st, m :: ms, stEnd =>
    (p.Next st).1 = true ∧ (p.Scan (p.Next st).2).1 = Except.ok m ∧
      Enumerates p (p.Scan (p.Next st).2).2 ms stEnd

/-- From state `st` the iterator yields the solutions `sols`, each `Scan` succeeding,
and then one more solution whose `Scan` fails with `err`, leaving state `stEnd`. -/
def ScanFaults (p : Engine σ) : σ → List GoMap → GoError → σ → Prop
  | st, [], err, stEnd =>
    (p.Next st).1 = true ∧ p.Scan (p.Next st).2 = (Except.error err, stEnd)
  | st, m :: ms, err, stEnd =>
    (p.Next st).1 = true ∧ (p.Scan (p.Next st).2).1 = Except.ok m ∧
      ScanFaults p (p.Scan (p.Next st).2).2 ms err stEnd

/-- The calls of `n` full iterations of the loop. -/
def loopCalls : Nat → List Call
  | 0 => []
  | n + 1 => [Call.next, Call.scan] ++ loopCalls n

/-- The engine serves the query to the end: the iterator opens without error, every
solution it produces scans without error, and its terminal `Err()` is nil. -/
def Completes (p : Engine σ) (queryCtx : Context) (query : String) (st : σ) : Prop :=
  (p.QueryContext queryCtx query st).1 = none ∧
    ∃ sols stEnd, Enumerates p (p.QueryContext queryCtx query st).2 sols stEnd ∧
      p.Err stEnd = none

/-- The engine fails the query after `k` gathered solutions: opening fails (`k = 0`),
or the `Scan` of the solution after the first `k` fails, or `Err()` is non-nil after
`k` solutions. -/
def FailsAfter (p : Engine σ) (queryCtx : Context) (query : String) (st : σ) (k : Nat) : Prop :=
  ((p.QueryContext queryCtx query st).1 ≠ none ∧ k = 0) ∨
  ((p.QueryContext queryCtx query st).1 = none ∧
    ∃ sols stEnd, sols.length = k ∧
      ((∃ err, ScanFaults p (p.QueryContext queryCtx query st).2 sols err stEnd) ∨
        (Enumerates p (p.QueryContext queryCtx query st).2 sols stEnd ∧ p.Err stEnd ≠ none)))

/-! ## Classification of failures and resources of a run -/

/-- The texts the query handler puts in front of a deadline error. -/
def timeoutFormats : List String :=
  ["query timed out after 15 seconds: ", "query iteration timed out after 15 seconds: "]

/-- An error returned by the query handler is a timeout failure when its message
starts with one of the handler's timeout texts. -/
def isTimeoutFailure (err : GoError) : Bool :=
  timeoutFormats.any (fun format => format.toList.isPrefixOf err.Error.toList)

/-- The resources of a run of the query handler: how many contexts were created and
cancelled, how many iterators were opened and closed. -/
structure Resources where
  contexts : Nat
  cancels : Nat
  opens : Nat
  closes : Nat
deriving DecidableEq, Repr

/-- The effect of one call on the resources. -/
def Resources.step (r : Resources) : Call → Resources
  | Call.withTimeout _ _ => ⟨r.contexts + 1, r.cancels, r.opens, r.closes⟩
  | Call.cancel => ⟨r.contexts, r.cancels + 1, r.opens, r.closes⟩
  | Call.queryContext _ _ true => ⟨r.contexts, r.cancels, r.opens + 1, r.closes⟩
  | Call.close => ⟨r.contexts, r.cancels, r.opens, r.closes + 1⟩
  | _ => r

/-- The resources after the calls of a run, starting with none held. -/
def resourcesAfter (calls : List Call) : Resources :=
  calls.foldl Resources.step ⟨0, 0, 0, 0⟩

/-- The iterator is still open: opened more often than closed. -/
def Resources.iteratorOpen (r : Resources) : Bool := decide (r.closes < r.opens)

end Behaviour

/-! ## The table the discover handler reads -/

/-- The handler finds the table `table` under the base value `base`: directly on `v`
(promoted fields included), or else inside the field `VM` of `v`. -/
def Locates {K : Type} (v base table : Value K) : Prop :=
  (v.FieldByName "procedures" = Lookup.valid table ∧ base = v) ∨
  (v.FieldByName "procedures" = Lookup.zero ∧ v.FieldByName "VM" = Lookup.valid base ∧
    base.FieldByName "procedures" = Lookup.valid table)

/-- A key type in the manner of the engine's predicate indicator: a name and an
arity, with a method `String()` that renders `name/arity`. -/
def indicatorKeys : KeyType (String × Nat) :=
  ⟨some ⟨0, false, fun k => [GoValue.str (k.1 ++ "/" ++ toString k.2)]⟩,
    fun k => k.1 ++ "/" ++ toString k.2⟩

/-- A table value with the given keys in iteration order. -/
def tableValue (keys : List (String × Nat)) : Value (String × Nat) :=
  Value.mk "map[engine.procedureIndicator]engine.procedure" Kind.map true [] (fun _ => []) keys

/-- A struct `VM` whose first field, at offset 0, is the table. -/
def vmValue (keys : List (String × Nat)) : Value (String × Nat) :=
  Value.mk "engine.VM" Kind.struct true [("procedures", 0, tableValue keys)]
    (fun offset => if offset = 0 then keys else []) []

/-- An interpreter value that embeds `VM` as its first field, at offset 0, so that
`procedures` is found as a promoted field and lies at offset 0 of the interpreter. -/
def interpreterValue (keys : List (String × Nat)) : Value (String × Nat) :=
  Value.mk "prolog.Interpreter" Kind.struct true
    [("VM", 0, vmValue keys), ("procedures", 0, tableValue keys)]
    (fun offset => if offset = 0 then keys else []) []

/-- An engine value on which `procedures` is not found directly, only inside `VM`. -/
def shadowedValue (keys : List (String × Nat)) : Value (String × Nat) :=
  Value.mk "prolog.Interpreter" Kind.struct true [("VM", 0, vmValue keys)]
    (fun offset => if offset = 0 then keys else []) []

/-- An engine value without any table. -/
def bareValue : Value (String × Nat) :=
  Value.mk "prolog.Interpreter" Kind.struct true [] (fun _ => []) []

/-- An engine value whose first field, at offset 0, is another map of the same type,
holding the key `decoy/9`, and which embeds `VM` after it, at offset 8: `procedures`,
with the registered keys, is found as a promoted field whose `StructField` has offset
0, its offset inside `VM`. -/
def decoyValue (keys : List (String × Nat)) : Value (String × Nat) :=
  Value.mk "prolog.Interpreter" Kind.struct true
    [("decoy", 0, tableValue [("decoy", 9)]), ("VM", 8, vmValue keys),
      ("procedures", 0, tableValue keys)]
    (fun offset => if offset = 0 then [("decoy", 9)] else if offset = 8 then keys else []) []

/-! ## The loop of the query handler -/

section Iterator

variable {σ : Type}

theorem iterate_of_enumerates (p : Engine σ) (sols : List GoMap) :
    ∀ (fuel : Nat) (st stEnd : σ) (all : List GoMap) (calls : List Call),
      Enumerates p st sols stEnd → sols.length < fuel →
      iterate p fuel st all calls =
        some (LoopEnd.exhausted (all ++ sols) stEnd
          (calls ++ loopCalls sols.length ++ [Call.next])) := by
  induction sols with
  | nil =>
    intro fuel st stEnd all calls h hf
    cases fuel with
    | zero => simp at hf
    | succ n =>
      simp only [Enumerates] at h
      simp [iterate, h, loopCalls]
  | cons m ms ih =>
    intro fuel st stEnd all calls h hf
    cases fuel with
    | zero => simp at hf
    | succ n =>
      obtain ⟨h1, h2, h3⟩ := h
      have hn : p.Next st = (true, (p.Next st).2) := Prod.ext h1 rfl
      have hs : p.Scan (p.Next st).2 = (Except.ok m, (p.Scan (p.Next st).2).2) :=
        Prod.ext h2 rfl
      have hlen : ms.length < n := by simpa using hf
      have := ih n _ stEnd (all ++ [m]) (calls ++ [Call.next, Call.scan]) h3 hlen
      rw [iterate, hn]
      simp only
      rw [hs]
      simp only
      rw [this]
      simp [loopCalls]

theorem iterate_of_scanFaults (p : Engine σ) (sols : List GoMap) :
    ∀ (fuel : Nat) (st stEnd : σ) (err : GoError) (all : List GoMap) (calls : List Call),
      ScanFaults p st sols err stEnd → sols.length < fuel →
      iterate p fuel st all calls =
        some (LoopEnd.scanFailed err stEnd (calls ++ loopCalls (sols.length + 1))) := by
  induction sols with
  | nil =>
    intro fuel st stEnd err all calls h hf
    cases fuel with
    | zero => simp at hf
    | succ n =>
      obtain ⟨h1, h2⟩ := h
      have hn : p.Next st = (true, (p.Next st).2) := Prod.ext h1 rfl
      rw [iterate, hn]
      simp only
      rw [h2]
      simp [loopCalls]
  | cons m ms ih =>
    intro fuel st stEnd err all calls h hf
    cases fuel with
    | zero => simp at hf
    | succ n =>
      obtain ⟨h1, h2, h3⟩ := h
      have hn : p.Next st = (true, (p.Next st).2) := Prod.ext h1 rfl
      have hs : p.Scan (p.Next st).2 = (Except.ok m, (p.Scan (p.Next st).2).2) :=
        Prod.ext h2 rfl
      have hlen : ms.length < n := by simpa using hf
      have := ih n _ stEnd err (all ++ [m]) (calls ++ [Call.next, Call.scan]) h3 hlen
      rw [iterate, hn]
      simp only
      rw [hs]
      simp only
      rw [this]
      simp [loopCalls]

theorem enumerates_of_iterate (p : Engine σ) :
    ∀ (fuel : Nat) (st stEnd : σ) (all all2 : List GoMap) (calls calls2 : List Call),
      iterate p fuel st all calls = some (LoopEnd.exhausted all2 stEnd calls2) →
      ∃ sols, all2 = all ++ sols ∧ Enumerates p st sols stEnd ∧ sols.length < fuel ∧
        calls2 = calls ++ loopCalls sols.length ++ [Call.next] := by
  intro fuel
  induction fuel with
  | zero => intro st stEnd all all2 calls calls2 h; simp [iterate] at h
  | succ n ih =>
    intro st stEnd all all2 calls calls2 h
    rw [iterate] at h
    rcases hn : p.Next st with ⟨b, st1⟩
    rw [hn] at h
    cases b with
    | false =>
      simp only [Option.some.injEq, LoopEnd.exhausted.injEq] at h
      obtain ⟨ha, hst, hc⟩ := h
      refine ⟨[], by simp [ha], ?_, by simp, by simp [loopCalls, hc]⟩
      simp [Enumerates, hn, hst]
    | true =>
      simp only at h
      rcases hs : p.Scan st1 with ⟨r, st2⟩
      rw [hs] at h
      cases r with
      | error e => simp at h
      | ok m =>
        simp only at h
        obtain ⟨sols, h1, h2, h3, h4⟩ := ih _ _ _ _ _ _ h
        refine ⟨m :: sols, by simp [h1], ?_, by simpa using h3, by simp [h4, loopCalls]⟩
        simp [Enumerates, hn, hs, h2]

theorem scanFaults_of_iterate (p : Engine σ) :
    ∀ (fuel : Nat) (st stEnd : σ) (err : GoError) (all : List GoMap) (calls calls2 : List Call),
      iterate p fuel st all calls = some (LoopEnd.scanFailed err stEnd calls2) →
      ∃ sols, ScanFaults p st sols err stEnd ∧ sols.length < fuel ∧
        calls2 = calls ++ loopCalls (sols.length + 1) := by
  intro fuel
  induction fuel with
  | zero => intro st stEnd err all calls calls2 h; simp [iterate] at h
  | succ n ih =>
    intro st stEnd err all calls calls2 h
    rw [iterate] at h
    rcases hn : p.Next st with ⟨b, st1⟩
    rw [hn] at h
    cases b with
    | false => simp at h
    | true =>
      simp only at h
      rcases hs : p.Scan st1 with ⟨r, st2⟩
      rw [hs] at h
      cases r with
      | error e =>
        simp only [Option.some.injEq, LoopEnd.scanFailed.injEq] at h
        obtain ⟨he, hst, hc⟩ := h
        refine ⟨[], ?_, by simp, by simp [loopCalls, hc]⟩
        simp [ScanFaults, hn, hs, he, hst]
      | ok m =>
        simp only at h
        obtain ⟨sols, h2, h3, h4⟩ := ih _ _ _ _ _ _ h
        refine ⟨m :: sols, ?_, by simpa using h3, by simp [h4, loopCalls]⟩
        simp [ScanFaults, hn, hs, h2]

/-- An iterator that enumerates to the end has no scan fault. -/
theorem enumerates_not_scanFaults (p : Engine σ) (st stEnd stEnd2 : σ) (sols sols2 : List GoMap)
    (err : GoError) (h1 : Enumerates p st sols stEnd) (h2 : ScanFaults p st sols2 err stEnd2) :
    False := by
  have a := iterate_of_enumerates p sols (sols.length + sols2.length + 1) st stEnd [] []
    h1 (by omega)
  have b := iterate_of_scanFaults p sols2 (sols.length + sols2.length + 1) st stEnd2 err [] []
    h2 (by omega)
  rw [a] at b
  simp at b

/-- The enumeration of an iterator is determined by its start state. -/
theorem enumerates_unique (p : Engine σ) (st stEnd stEnd2 : σ) (sols sols2 : List GoMap)
    (h1 : Enumerates p st sols stEnd) (h2 : Enumerates p st sols2 stEnd2) :
    sols = sols2 ∧ stEnd = stEnd2 := by
  have a := iterate_of_enumerates p sols (sols.length + sols2.length + 1) st stEnd [] []
    h1 (by omega)
  have b := iterate_of_enumerates p sols2 (sols.length + sols2.length + 1) st stEnd2 [] []
    h2 (by omega)
  rw [a] at b
  simp only [List.nil_append, Option.some.injEq, LoopEnd.exhausted.injEq] at b
  exact ⟨b.1, b.2.1⟩

end Iterator

/-! ## The runs of the query handler -/

section QueryRuns

variable {σ : Type}

/-- The run of the query handler when opening the iterator fails. -/
theorem queryHandler_open_failed (p : Engine σ) (now fuel : Nat) (ctx qctx : Context)
    (request : CallToolRequest) (query : String) (st st1 : σ) (err : GoError)
    (hq : qctx = WithTimeout now ctx (15 * Second))
    (harg : request.Arguments "query" = some (GoValue.str query))
    (hopen : p.QueryContext qctx query st = (some err, st1)) :
    queryHandler p now fuel ctx request st =
      some ⟨Outcome.ret none (some (Errorf
          (if errorsIs err GoError.deadlineExceeded then "query timed out after 15 seconds: "
            else "query error: ") err)),
        [Call.withTimeout ctx (15 * Second), Call.queryContext qctx query false, Call.cancel],
        st1⟩ := by
  subst hq
  unfold queryHandler
  rw [harg]
  simp only
  rw [hopen]
  simp only
  split <;> rfl

/-- The run of the query handler when a `Scan` fails. -/
theorem queryHandler_scan_failed (p : Engine σ) (now fuel : Nat) (ctx qctx : Context)
    (request : CallToolRequest) (query : String) (st st1 stEnd : σ) (sols : List GoMap)
    (err : GoError) (hq : qctx = WithTimeout now ctx (15 * Second))
    (harg : request.Arguments "query" = some (GoValue.str query))
    (hopen : p.QueryContext qctx query st = (none, st1))
    (hscan : ScanFaults p st1 sols err stEnd) (hfuel : sols.length < fuel) :
    queryHandler p now fuel ctx request st =
      some ⟨Outcome.ret none (some (Errorf "error scanning solution: " err)),
        [Call.withTimeout ctx (15 * Second), Call.queryContext qctx query true] ++
          loopCalls (sols.length + 1) ++ [Call.close, Call.cancel],
        p.Close stEnd⟩ := by
  subst hq
  unfold queryHandler
  rw [harg]
  simp only
  rw [hopen]
  simp only
  rw [iterate_of_scanFaults p sols fuel st1 stEnd err [] _ hscan hfuel]

/-- The run of the query handler when the iteration ends with a non-nil `Err()`. -/
theorem queryHandler_iteration_failed (p : Engine σ) (now fuel : Nat) (ctx qctx : Context)
    (request : CallToolRequest) (query : String) (st st1 stEnd : σ) (sols : List GoMap)
    (err : GoError) (hq : qctx = WithTimeout now ctx (15 * Second))
    (harg : request.Arguments "query" = some (GoValue.str query))
    (hopen : p.QueryContext qctx query st = (none, st1))
    (henum : Enumerates p st1 sols stEnd) (hfuel : sols.length < fuel)
    (herr : p.Err stEnd = some err) :
    queryHandler p now fuel ctx request st =
      some ⟨Outcome.ret none (some (Errorf
          (if errorsIs err GoError.deadlineExceeded then
            "query iteration timed out after 15 seconds: "
            else "error during query iteration: ") err)),
        [Call.withTimeout ctx (15 * Second), Call.queryContext qctx query true] ++
          loopCalls sols.length ++ [Call.next] ++ [Call.err, Call.close, Call.cancel],
        p.Close stEnd⟩ := by
  subst hq
  unfold queryHandler
  rw [harg]
  simp only
  rw [hopen]
  simp only
  rw [iterate_of_enumerates p sols fuel st1 stEnd [] _ henum hfuel]
  simp only [herr]
  split <;> rfl

/-- The run of the query handler when the iteration ends with a nil `Err()`. -/
theorem queryHandler_completed (p : Engine σ) (now fuel : Nat) (ctx qctx : Context)
    (request : CallToolRequest) (query : String) (st st1 stEnd : σ) (sols : List GoMap)
    (hq : qctx = WithTimeout now ctx (15 * Second))
    (harg : request.Arguments "query" = some (GoValue.str query))
    (hopen : p.QueryContext qctx query st = (none, st1))
    (henum : Enumerates p st1 sols stEnd) (hfuel : sols.length < fuel)
    (herr : p.Err stEnd = none) :
    queryHandler p now fuel ctx request st =
      some ⟨Outcome.ret (some (sprintSolutions sols)) none,
        [Call.withTimeout ctx (15 * Second), Call.queryContext qctx query true] ++
          loopCalls sols.length ++ [Call.next] ++ [Call.err, Call.close, Call.cancel],
        p.Close stEnd⟩ := by
  subst hq
  unfold queryHandler
  rw [harg]
  simp only
  rw [hopen]
  simp only
  rw [iterate_of_enumerates p sols fuel st1 stEnd [] _ henum hfuel]
  simp only [herr, List.nil_append]

/-- Every run of the query handler on a string argument is one of the four above. -/
theorem queryHandler_cases (p : Engine σ) (now fuel : Nat) (ctx qctx : Context)
    (request : CallToolRequest) (query : String) (st : σ) (run : Run σ)
    (hq : qctx = WithTimeout now ctx (15 * Second))
    (harg : request.Arguments "query" = some (GoValue.str query))
    (hrun : queryHandler p now fuel ctx request st = some run) :
    (∃ err st1, p.QueryContext qctx query st = (some err, st1)) ∨
    (∃ st1 sols err stEnd, p.QueryContext qctx query st = (none, st1) ∧
      ScanFaults p st1 sols err stEnd ∧ sols.length < fuel) ∨
    (∃ st1 sols err stEnd, p.QueryContext qctx query st = (none, st1) ∧
      Enumerates p st1 sols stEnd ∧ sols.length < fuel ∧ p.Err stEnd = some err) ∨
    (∃ st1 sols stEnd, p.QueryContext qctx query st = (none, st1) ∧
      Enumerates p st1 sols stEnd ∧ sols.length < fuel ∧ p.Err stEnd = none) := by
  subst hq
  rcases hopen : p.QueryContext (WithTimeout now ctx (15 * Second)) query st with ⟨oerr, st1⟩
  cases oerr with
  | some err => exact Or.inl ⟨err, st1, rfl⟩
  | none =>
    right
    unfold queryHandler at hrun
    rw [harg] at hrun
    simp only at hrun
    rw [hopen] at hrun
    simp only at hrun
    cases hit : iterate p fuel st1 []
      [Call.withTimeout ctx (15 * Second),
        Call.queryContext (WithTimeout now ctx (15 * Second)) query true] with
    | none => rw [hit] at hrun; simp at hrun
    | some e =>
      cases e with
      | scanFailed err st2 calls2 =>
        obtain ⟨sols, h1, h2, _⟩ := scanFaults_of_iterate p fuel st1 st2 err [] _ calls2 hit
        exact Or.inl ⟨st1, sols, err, st2, rfl, h1, h2⟩
      | exhausted all st2 calls2 =>
        obtain ⟨sols, _, h1, h2, _⟩ := enumerates_of_iterate p fuel st1 st2 [] all _ calls2 hit
        right
        cases herr : p.Err st2 with
        | some err => exact Or.inl ⟨st1, sols, err, st2, rfl, h1, h2, herr⟩
        | none => exact Or.inr ⟨st1, sols, st2, rfl, h1, h2, herr⟩

end QueryRuns

/-! ## Errors built by the query handler -/

theorem isPrefixOf_append_self (a b : List Char) : a.isPrefixOf (a ++ b) = true := by
  induction a with
  | nil => simp [List.isPrefixOf]
  | cons x xs ih => simp [List.isPrefixOf, ih]

theorem isTimeoutFailure_open (err : GoError) :
    isTimeoutFailure (Errorf "query timed out after 15 seconds: " err) = true := by
  simp [isTimeoutFailure, timeoutFormats, Errorf, String.toList, String.data_append,
    GoError.Error.eq_4, isPrefixOf_append_self]

theorem isTimeoutFailure_iteration (err : GoError) :
    isTimeoutFailure (Errorf "query iteration timed out after 15 seconds: " err) = true := by
  simp [isTimeoutFailure, timeoutFormats, Errorf, String.toList, String.data_append,
    GoError.Error.eq_4, isPrefixOf_append_self]

theorem not_isTimeoutFailure_query_error (err : GoError) :
    isTimeoutFailure (Errorf "query error: " err) = false := by
  simp [isTimeoutFailure, timeoutFormats, Errorf, String.toList, String.data_append,
    GoError.Error.eq_4]
  constructor <;> rfl

theorem not_isTimeoutFailure_scan (err : GoError) :
    isTimeoutFailure (Errorf "error scanning solution: " err) = false := by
  simp [isTimeoutFailure, timeoutFormats, Errorf, String.toList, String.data_append,
    GoError.Error.eq_4]
  constructor <;> rfl

theorem not_isTimeoutFailure_iteration_error (err : GoError) :
    isTimeoutFailure (Errorf "error during query iteration: " err) = false := by
  simp [isTimeoutFailure, timeoutFormats, Errorf, String.toList, String.data_append,
    GoError.Error.eq_4]
  constructor <;> rfl

theorem errorsIs_Errorf_self (format : String) (err : GoError) :
    errorsIs (Errorf format err) err = true := by
  cases err <;> simp [errorsIs, Errorf]

theorem getLast?_cons_append_cancel (c : Call) (l m : List Call)
    (h : m.getLast? = some Call.cancel) : (c :: (l ++ m)).getLast? = some Call.cancel := by
  rw [← List.cons_append, List.getLast?_append, h]
  simp

theorem resources_loopCalls (n : Nat) (r : Resources) :
    (loopCalls n).foldl Resources.step r = r := by
  induction n with
  | zero => rfl
  | succ k ih => simpa [loopCalls, Resources.step] using ih

/-! ## The query handler: results -/

section Query

variable {σ : Type}

/-- C1: when the iterator opens without error, yields the solutions `sols` with every
`Scan` succeeding and then reports a nil `Err()`, the query handler returns, for every
bound above the number of solutions, a nil error and the text rendering of exactly
`sols` in enumeration order; the slice at the end of the loop is `sols` itself, and
for no solution the text is `[]`. -/
theorem query_returns_all_solutions_in_order (p : Engine σ) (now fuel : Nat) (ctx : Context)
    (request : CallToolRequest) (query : String) (st stEnd : σ) (sols : List GoMap)
    (harg : request.Arguments "query" = some (GoValue.str query))
    (hopen : (p.QueryContext (WithTimeout now ctx (15 * Second)) query st).1 = none)
    (henum : Enumerates p (p.QueryContext (WithTimeout now ctx (15 * Second)) query st).2
      sols stEnd)
    (herr : p.Err stEnd = none) (hfuel : sols.length < fuel) :
    (∃ run, queryHandler p now fuel ctx request st = some run ∧
      run.outcome = Outcome.ret (some (sprintSolutions sols)) none ∧
      (sols = [] → run.outcome = Outcome.ret (some "[]") none)) ∧
    ∃ calls calls2, iterate p fuel
      (p.QueryContext (WithTimeout now ctx (15 * Second)) query st).2 [] calls =
        some (LoopEnd.exhausted sols stEnd calls2) := by
  have hq : p.QueryContext (WithTimeout now ctx (15 * Second)) query st =
      (none, (p.QueryContext (WithTimeout now ctx (15 * Second)) query st).2) :=
    Prod.ext hopen rfl
  constructor
  · have hit := iterate_of_enumerates p sols fuel _ stEnd []
      [Call.withTimeout ctx (15 * Second),
        Call.queryContext (WithTimeout now ctx (15 * Second)) query true] henum hfuel
    have hrun : ∃ calls, queryHandler p now fuel ctx request st =
        some ⟨Outcome.ret (some (sprintSolutions sols)) none, calls, p.Close stEnd⟩ := by
      unfold queryHandler
      rw [harg]
      simp only
      rw [hq]
      simp only
      rw [hit]
      simp only [herr, List.nil_append]
      exact ⟨_, rfl⟩
    obtain ⟨calls, hc⟩ := hrun
    refine ⟨_, hc, rfl, ?_⟩
    intro hnil
    subst hnil
    show Outcome.ret (some (sprintSolutions [])) none = Outcome.ret (some "[]") none
    decide
  · exact ⟨[], _, by simpa using iterate_of_enumerates p sols fuel _ stEnd [] [] henum hfuel⟩

/-- Witness for C1: the scripted engine with two solutions. -/
theorem query_returns_all_solutions_in_order_witness :
    (∃ run, queryHandler (scriptEngine none none none) 0 3 Context.Background
        (requestWith "query" (GoValue.str "p(X).")) [Except.ok [("X", GoValue.int 1)],
          Except.ok [("X", GoValue.int 2)]] = some run ∧
      run.outcome = Outcome.ret (some (sprintSolutions [[("X", GoValue.int 1)],
        [("X", GoValue.int 2)]])) none ∧
      (([[("X", GoValue.int 1)], [("X", GoValue.int 2)]] : List GoMap) = [] →
        run.outcome = Outcome.ret (some "[]") none)) ∧
    ∃ calls calls2, iterate (scriptEngine none none none) 3
      ((scriptEngine none none none).QueryContext (WithTimeout 0 Context.Background (15 * Second))
        "p(X)." [Except.ok [("X", GoValue.int 1)], Except.ok [("X", GoValue.int 2)]]).2 [] calls =
        some (LoopEnd.exhausted [[("X", GoValue.int 1)], [("X", GoValue.int 2)]] [] calls2) :=
  query_returns_all_solutions_in_order (scriptEngine none none none) 0 3 Context.Background
    (requestWith "query" (GoValue.str "p(X).")) "p(X)."
    [Except.ok [("X", GoValue.int 1)], Except.ok [("X", GoValue.int 2)]] []
    [[("X", GoValue.int 1)], [("X", GoValue.int 2)]] rfl rfl ⟨rfl, rfl, rfl, rfl, rfl⟩ rfl
    (by decide)

/-- C2: on a string argument, a run of the query handler is a success exactly when
the iterator opened, every produced solution scanned and the terminal `Err()` was
nil; every other run returns a nil result with a non-nil error, whatever number `k` of
solutions was gathered before the failure; and in both cases the handler does return
once the bound exceeds the number of solutions. -/
theorem query_success_iff_completes (p : Engine σ) (now : Nat) (ctx : Context)
    (request : CallToolRequest) (query : String) (st : σ)
    (harg : request.Arguments "query" = some (GoValue.str query)) :
    (∀ fuel run, queryHandler p now fuel ctx request st = some run →
      ((∃ text, run.outcome = Outcome.ret (some text) none) ↔
        Completes p (WithTimeout now ctx (15 * Second)) query st) ∧
      (¬ Completes p (WithTimeout now ctx (15 * Second)) query st →
        ∃ err, run.outcome = Outcome.ret none (some err))) ∧
    (∀ k fuel, FailsAfter p (WithTimeout now ctx (15 * Second)) query st k → k < fuel →
      ∃ run err, queryHandler p now fuel ctx request st = some run ∧
        run.outcome = Outcome.ret none (some err)) ∧
    (Completes p (WithTimeout now ctx (15 * Second)) query st →
      ∃ fuel0, ∀ fuel, fuel0 ≤ fuel →
        ∃ run text, queryHandler p now fuel ctx request st = some run ∧
          run.outcome = Outcome.ret (some text) none) := by
  refine ⟨?_, ?_, ?_⟩
  · intro fuel run hrun
    rcases queryHandler_cases p now fuel ctx _ request query st run rfl harg hrun with
      ⟨err, st1, ho⟩ | ⟨st1, sols, err, stEnd, ho, hs, hf⟩ |
      ⟨st1, sols, err, stEnd, ho, he, hf, herr⟩ | ⟨st1, sols, stEnd, ho, he, hf, herr⟩
    · have hno : ¬ Completes p (WithTimeout now ctx (15 * Second)) query st := by
        intro hc
        have := hc.1
        rw [ho] at this
        simp at this
      rw [queryHandler_open_failed p now fuel ctx _ request query st st1 err rfl harg ho] at hrun
      simp only [Option.some.injEq] at hrun
      subst hrun
      exact ⟨⟨fun ⟨_, h⟩ => by simp at h, fun h => absurd h hno⟩, fun _ => ⟨_, rfl⟩⟩
    · have hno : ¬ Completes p (WithTimeout now ctx (15 * Second)) query st := by
        intro hc
        obtain ⟨_, sols2, stEnd2, h2, _⟩ := hc
        rw [ho] at h2
        exact enumerates_not_scanFaults p st1 stEnd2 stEnd sols2 sols err h2 hs
      rw [queryHandler_scan_failed p now fuel ctx _ request query st st1 stEnd sols err rfl harg
        ho hs hf] at hrun
      simp only [Option.some.injEq] at hrun
      subst hrun
      exact ⟨⟨fun ⟨_, h⟩ => by simp at h, fun h => absurd h hno⟩, fun _ => ⟨_, rfl⟩⟩
    · have hno : ¬ Completes p (WithTimeout now ctx (15 * Second)) query st := by
        intro hc
        obtain ⟨_, sols2, stEnd2, h2, h3⟩ := hc
        rw [ho] at h2
        obtain ⟨_, hst⟩ := enumerates_unique p st1 stEnd stEnd2 sols sols2 he h2
        rw [← hst, herr] at h3
        simp at h3
      rw [queryHandler_iteration_failed p now fuel ctx _ request query st st1 stEnd sols err rfl
        harg ho he hf herr] at hrun
      simp only [Option.some.injEq] at hrun
      subst hrun
      exact ⟨⟨fun ⟨_, h⟩ => by simp at h, fun h => absurd h hno⟩, fun _ => ⟨_, rfl⟩⟩
    · have hyes : Completes p (WithTimeout now ctx (15 * Second)) query st := by
        refine ⟨by rw [ho], sols, stEnd, ?_, herr⟩
        rw [ho]
        exact he
      rw [queryHandler_completed p now fuel ctx _ request query st st1 stEnd sols rfl harg ho he
        hf herr] at hrun
      simp only [Option.some.injEq] at hrun
      subst hrun
      exact ⟨⟨fun _ => hyes, fun _ => ⟨_, rfl⟩⟩, fun h => absurd hyes h⟩
  · intro k fuel hfail hk
    rcases hfail with ⟨hopen, _⟩ | ⟨hopen, sols, stEnd, hlen, hcase⟩
    · cases ho : p.QueryContext (WithTimeout now ctx (15 * Second)) query st with
      | mk oerr st1 =>
        cases oerr with
        | none => rw [ho] at hopen; simp at hopen
        | some err =>
          exact ⟨_, _, queryHandler_open_failed p now fuel ctx _ request query st st1 err rfl
            harg ho, rfl⟩
    · have ho : p.QueryContext (WithTimeout now ctx (15 * Second)) query st =
          (none, (p.QueryContext (WithTimeout now ctx (15 * Second)) query st).2) :=
        Prod.ext hopen rfl
      subst hlen
      rcases hcase with ⟨err, hs⟩ | ⟨he, herr⟩
      · exact ⟨_, _, queryHandler_scan_failed p now fuel ctx _ request query st _ stEnd sols err
          rfl harg ho hs hk, rfl⟩
      · cases hE : p.Err stEnd with
        | none => exact absurd hE herr
        | some err =>
          exact ⟨_, _, queryHandler_iteration_failed p now fuel ctx _ request query st _ stEnd
            sols err rfl harg ho he hk hE, rfl⟩
  · intro hc
    obtain ⟨hopen, sols, stEnd, he, herr⟩ := hc
    have ho : p.QueryContext (WithTimeout now ctx (15 * Second)) query st =
        (none, (p.QueryContext (WithTimeout now ctx (15 * Second)) query st).2) :=
      Prod.ext hopen rfl
    refine ⟨sols.length + 1, fun fuel hf => ⟨_, _, queryHandler_completed p now fuel ctx _
      request query st _ stEnd sols rfl harg ho he (by omega) herr, rfl⟩⟩

/-- Witness for C2: the scripted engine whose second `Scan` fails. -/
theorem query_success_iff_completes_witness :
    ((∃ text, (⟨Outcome.ret none (some (Errorf "error scanning solution: "
          (GoError.errorString "boom"))),
        [Call.withTimeout Context.Background (15 * Second),
          Call.queryContext (WithTimeout 0 Context.Background (15 * Second)) "p(X)." true,
          Call.next, Call.scan, Call.next, Call.scan, Call.close, Call.cancel],
        []⟩ : Run (List (Except GoError GoMap))).outcome = Outcome.ret (some text) none) ↔
      Completes (scriptEngine none none none) (WithTimeout 0 Context.Background (15 * Second))
        "p(X)." [Except.ok [("X", GoValue.int 1)], Except.error (GoError.errorString "boom")]) ∧
    (¬ Completes (scriptEngine none none none) (WithTimeout 0 Context.Background (15 * Second))
        "p(X)." [Except.ok [("X", GoValue.int 1)], Except.error (GoError.errorString "boom")] →
      ∃ err, (⟨Outcome.ret none (some (Errorf "error scanning solution: "
          (GoError.errorString "boom"))),
        [Call.withTimeout Context.Background (15 * Second),
          Call.queryContext (WithTimeout 0 Context.Background (15 * Second)) "p(X)." true,
          Call.next, Call.scan, Call.next, Call.scan, Call.close, Call.cancel],
        []⟩ : Run (List (Except GoError GoMap))).outcome = Outcome.ret none (some err)) :=
  (query_success_iff_completes (scriptEngine none none none) 0 Context.Background
    (requestWith "query" (GoValue.str "p(X).")) "p(X)."
    [Except.ok [("X", GoValue.int 1)], Except.error (GoError.errorString "boom")] rfl).1 3 _ rfl

/-- Counterexample to C3: a `Scan` that fails with `context.DeadlineExceeded` makes
the query handler return the generic scanning error, which wraps the deadline error but
is not a timeout failure. -/
theorem query_deadline_at_scan_is_not_timeout :
    ∃ run e, queryHandler (scriptEngine none none none) 0 2 Context.Background
        (requestWith "query" (GoValue.str "p(X).")) [Except.error GoError.deadlineExceeded] =
        some run ∧
      run.outcome = Outcome.ret none (some e) ∧
      e.Error = "error scanning solution: context deadline exceeded" ∧
      errorsIs e GoError.deadlineExceeded = true ∧
      isTimeoutFailure e = false :=
  ⟨_, _, rfl, rfl, by decide, by decide, by decide⟩

/-- C3, amended: when the engine surfaces `context.DeadlineExceeded` (possibly wrapped)
on opening the iterator, or as the terminal `Err()` after the iteration, the query
handler returns a timeout failure whose message says that the query, or the query
iteration, timed out after 15 seconds, and which wraps the engine's error. -/
theorem query_deadline_at_open_or_err_is_timeout (p : Engine σ) (now : Nat) (ctx : Context)
    (request : CallToolRequest) (query : String) (st : σ)
    (harg : request.Arguments "query" = some (GoValue.str query)) :
    (∀ err st1 fuel,
      p.QueryContext (WithTimeout now ctx (15 * Second)) query st = (some err, st1) →
      errorsIs err GoError.deadlineExceeded = true →
      ∃ run e, queryHandler p now fuel ctx request st = some run ∧
        run.outcome = Outcome.ret none (some e) ∧ isTimeoutFailure e = true ∧
        e.Error = "query timed out after 15 seconds: " ++ err.Error ∧
        e.Unwrap = some err) ∧
    (∀ err st1 sols stEnd fuel,
      p.QueryContext (WithTimeout now ctx (15 * Second)) query st = (none, st1) →
      Enumerates p st1 sols stEnd → p.Err stEnd = some err →
      errorsIs err GoError.deadlineExceeded = true → sols.length < fuel →
      ∃ run e, queryHandler p now fuel ctx request st = some run ∧
        run.outcome = Outcome.ret none (some e) ∧ isTimeoutFailure e = true ∧
        e.Error = "query iteration timed out after 15 seconds: " ++ err.Error ∧
        e.Unwrap = some err) := by
  constructor
  · intro err st1 fuel ho hd
    refine ⟨_, _, queryHandler_open_failed p now fuel ctx _ request query st st1 err rfl harg ho,
      rfl, ?_, ?_, ?_⟩
    · rw [if_pos hd]; exact isTimeoutFailure_open err
    · rw [if_pos hd]; rfl
    · rfl
  · intro err st1 sols stEnd fuel ho he herr hd hf
    refine ⟨_, _, queryHandler_iteration_failed p now fuel ctx _ request query st st1 stEnd sols
      err rfl harg ho he hf herr, rfl, ?_, ?_, ?_⟩
    · rw [if_pos hd]; exact isTimeoutFailure_iteration err
    · rw [if_pos hd]; rfl
    · rfl

/-- Witness for C3, amended: the scripted engine whose `QueryContext` fails with a
wrapped deadline error. -/
theorem query_deadline_at_open_or_err_is_timeout_witness :
    ∃ run e, queryHandler (scriptEngine
        (some (GoError.wrapError "engine: context deadline exceeded" GoError.deadlineExceeded))
        none none) 0 0 Context.Background (requestWith "query" (GoValue.str "p(X).")) [] =
        some run ∧
      run.outcome = Outcome.ret none (some e) ∧ isTimeoutFailure e = true ∧
      e.Error = "query timed out after 15 seconds: " ++
        (GoError.wrapError "engine: context deadline exceeded" GoError.deadlineExceeded).Error ∧
      e.Unwrap =
        some (GoError.wrapError "engine: context deadline exceeded" GoError.deadlineExceeded) :=
  (query_deadline_at_open_or_err_is_timeout (scriptEngine
      (some (GoError.wrapError "engine: context deadline exceeded" GoError.deadlineExceeded))
      none none) 0 Context.Background (requestWith "query" (GoValue.str "p(X).")) "p(X)." []
    rfl).1 _ [] 0 rfl (by decide)

/-- C4: when the engine reports a fault that is not a deadline expiry on opening the
iterator or as the terminal `Err()`, or any fault from `Scan`, the query handler
returns a nil result and an error that is not a timeout failure, that wraps the
engine's error (`Unwrap` and `errors.Is` reach it) and whose message ends with the
engine's diagnostic text. -/
theorem query_engine_fault_is_wrapped (p : Engine σ) (now : Nat) (ctx : Context)
    (request : CallToolRequest) (query : String) (st : σ)
    (harg : request.Arguments "query" = some (GoValue.str query)) :
    (∀ err st1 fuel,
      p.QueryContext (WithTimeout now ctx (15 * Second)) query st = (some err, st1) →
      errorsIs err GoError.deadlineExceeded = false →
      ∃ run e, queryHandler p now fuel ctx request st = some run ∧
        run.outcome = Outcome.ret none (some e) ∧ isTimeoutFailure e = false ∧
        e.Unwrap = some err ∧ errorsIs e err = true ∧
        e.Error = "query error: " ++ err.Error) ∧
    (∀ err st1 sols stEnd fuel,
      p.QueryContext (WithTimeout now ctx (15 * Second)) query st = (none, st1) →
      ScanFaults p st1 sols err stEnd → sols.length < fuel →
      ∃ run e, queryHandler p now fuel ctx request st = some run ∧
        run.outcome = Outcome.ret none (some e) ∧ isTimeoutFailure e = false ∧
        e.Unwrap = some err ∧ errorsIs e err = true ∧
        e.Error = "error scanning solution: " ++ err.Error) ∧
    (∀ err st1 sols stEnd fuel,
      p.QueryContext (WithTimeout now ctx (15 * Second)) query st = (none, st1) →
      Enumerates p st1 sols stEnd → p.Err stEnd = some err →
      errorsIs err GoError.deadlineExceeded = false → sols.length < fuel →
      ∃ run e, queryHandler p now fuel ctx request st = some run ∧
        run.outcome = Outcome.ret none (some e) ∧ isTimeoutFailure e = false ∧
        e.Unwrap = some err ∧ errorsIs e err = true ∧
        e.Error = "error during query iteration: " ++ err.Error) := by
  refine ⟨?_, ?_, ?_⟩
  · intro err st1 fuel ho hd
    have hne : ¬ errorsIs err GoError.deadlineExceeded = true := by simp [hd]
    refine ⟨_, _, queryHandler_open_failed p now fuel ctx _ request query st st1 err rfl harg ho,
      rfl, ?_, rfl, ?_, ?_⟩
    · rw [if_neg hne]; exact not_isTimeoutFailure_query_error err
    · exact errorsIs_Errorf_self _ err
    · rw [if_neg hne]; rfl
  · intro err st1 sols stEnd fuel ho hs hf
    exact ⟨_, _, queryHandler_scan_failed p now fuel ctx _ request query st st1 stEnd sols err
      rfl harg ho hs hf, rfl, not_isTimeoutFailure_scan err, rfl, errorsIs_Errorf_self _ err, rfl⟩
  · intro err st1 sols stEnd fuel ho he herr hd hf
    have hne : ¬ errorsIs err GoError.deadlineExceeded = true := by simp [hd]
    refine ⟨_, _, queryHandler_iteration_failed p now fuel ctx _ request query st st1 stEnd sols
      err rfl harg ho he hf herr, rfl, ?_, rfl, ?_, ?_⟩
    · rw [if_neg hne]; exact not_isTimeoutFailure_iteration_error err
    · exact errorsIs_Errorf_self _ err
    · rw [if_neg hne]; rfl

/-- Witness for C4: the scripted engine whose `Err()` reports a syntax error after
one solution. -/
theorem query_engine_fault_is_wrapped_witness :
    ∃ run e, queryHandler (scriptEngine none (some (GoError.errorString "unexpected token"))
        none) 0 2 Context.Background (requestWith "query" (GoValue.str "p(X).."))
        [Except.ok [("X", GoValue.int 1)]] = some run ∧
      run.outcome = Outcome.ret none (some e) ∧ isTimeoutFailure e = false ∧
      e.Unwrap = some (GoError.errorString "unexpected token") ∧
      errorsIs e (GoError.errorString "unexpected token") = true ∧
      e.Error = "error during query iteration: " ++
        (GoError.errorString "unexpected token").Error :=
  (query_engine_fault_is_wrapped (scriptEngine none (some (GoError.errorString
      "unexpected token")) none) 0 Context.Background
    (requestWith "query" (GoValue.str "p(X)..")) "p(X).." [Except.ok [("X", GoValue.int 1)]]
    rfl).2.2 _ _ [[("X", GoValue.int 1)]] [] 2 rfl ⟨rfl, rfl, rfl⟩ rfl (by decide) (by decide)

/-- C6: on every return of the query handler, whichever exit path is taken, one
context was created and its cancel function was invoked once, the last call of the
run being that cancel; the iterator was opened exactly when `QueryContext` returned
no error, in which case it was closed exactly once, and otherwise it was never
closed; no final state has the iterator still open. -/
theorem query_releases_resources (p : Engine σ) (now fuel : Nat) (ctx : Context)
    (request : CallToolRequest) (query : String) (st : σ) (run : Run σ)
    (harg : request.Arguments "query" = some (GoValue.str query))
    (hrun : queryHandler p now fuel ctx request st = some run) :
    (resourcesAfter run.calls).contexts = 1 ∧ (resourcesAfter run.calls).cancels = 1 ∧
    run.calls.getLast? = some Call.cancel ∧
    (resourcesAfter run.calls).iteratorOpen = false ∧
    ((p.QueryContext (WithTimeout now ctx (15 * Second)) query st).1 = none →
      (resourcesAfter run.calls).opens = 1 ∧ (resourcesAfter run.calls).closes = 1) ∧
    ((p.QueryContext (WithTimeout now ctx (15 * Second)) query st).1 ≠ none →
      (resourcesAfter run.calls).opens = 0 ∧ (resourcesAfter run.calls).closes = 0) := by
  rcases queryHandler_cases p now fuel ctx _ request query st run rfl harg hrun with
    ⟨err, st1, ho⟩ | ⟨st1, sols, err, stEnd, ho, hs, hf⟩ |
    ⟨st1, sols, err, stEnd, ho, he, hf, herr⟩ | ⟨st1, sols, stEnd, ho, he, hf, herr⟩
  · rw [queryHandler_open_failed p now fuel ctx _ request query st st1 err rfl harg ho] at hrun
    simp only [Option.some.injEq] at hrun
    subst hrun
    simp [resourcesAfter, Resources.step, Resources.iteratorOpen, ho]
  · rw [queryHandler_scan_failed p now fuel ctx _ request query st st1 stEnd sols err rfl harg
      ho hs hf] at hrun
    simp only [Option.some.injEq] at hrun
    subst hrun
    simp [resourcesAfter, Resources.step, Resources.iteratorOpen, ho, List.foldl_append,
      resources_loopCalls, getLast?_cons_append_cancel]
  · rw [queryHandler_iteration_failed p now fuel ctx _ request query st st1 stEnd sols err rfl
      harg ho he hf herr] at hrun
    simp only [Option.some.injEq] at hrun
    subst hrun
    simp [resourcesAfter, Resources.step, Resources.iteratorOpen, ho, List.foldl_append,
      resources_loopCalls, getLast?_cons_append_cancel]
  · rw [queryHandler_completed p now fuel ctx _ request query st st1 stEnd sols rfl harg ho he
      hf herr] at hrun
    simp only [Option.some.injEq] at hrun
    subst hrun
    simp [resourcesAfter, Resources.step, Resources.iteratorOpen, ho, List.foldl_append,
      resources_loopCalls, getLast?_cons_append_cancel]

/-- Witness for C6: the run of the scripted engine whose second `Scan` fails. -/
theorem query_releases_resources_witness :
    (resourcesAfter [Call.withTimeout Context.Background (15 * Second),
      Call.queryContext (WithTimeout 0 Context.Background (15 * Second)) "p(X)." true,
      Call.next, Call.scan, Call.next, Call.scan, Call.close, Call.cancel]).cancels = 1 :=
  (query_releases_resources (scriptEngine none none none) 0 3 Context.Background
    (requestWith "query" (GoValue.str "p(X).")) "p(X)."
    [Except.ok [("X", GoValue.int 1)], Except.error (GoError.errorString "boom")]
    ⟨Outcome.ret none (some (Errorf "error scanning solution: " (GoError.errorString "boom"))),
      [Call.withTimeout Context.Background (15 * Second),
        Call.queryContext (WithTimeout 0 Context.Background (15 * Second)) "p(X)." true,
        Call.next, Call.scan, Call.next, Call.scan, Call.close, Call.cancel], []⟩
    rfl rfl).2.1

end Query

/-! ## Argument handling of the query and exec handlers -/

section Arguments

variable {σ : Type}

/-- Counterexample to C5: with the argument missing the query handler panics, with a
non-string argument the exec handler panics, and with an empty program the exec
handler calls the engine and reports success; none returns a failure value. -/
theorem malformed_argument_is_not_rejected :
    (queryHandler (scriptEngine none none none) 0 1 Context.Background emptyRequest []).map
        (fun run => (run.outcome, run.calls)) = some (Outcome.panic, []) ∧
    (execHandler (scriptEngine none none none) Context.Background
        (requestWith "program" (GoValue.int 3)) []).outcome = Outcome.panic ∧
    (execHandler (scriptEngine none none none) Context.Background
        (requestWith "program" (GoValue.str "")) []).calls =
      [Call.execContext Context.Background ""] ∧
    (execHandler (scriptEngine none none none) Context.Background
        (requestWith "program" (GoValue.str "")) []).outcome =
      Outcome.ret (some "Program executed successfully") none := by
  decide

/-- C5, amended: when the required argument is missing or is not a string, the query
handler and the exec handler panic at the type assertion before any call to a
collaborator, leaving the engine state untouched; an empty string is not rejected,
the handler passes it to the engine as the query or program. -/
theorem malformed_argument_panics_before_engine (p : Engine σ) (now fuel : Nat) (ctx : Context)
    (request : CallToolRequest) (st : σ) :
    ((∀ text, request.Arguments "query" ≠ some (GoValue.str text)) →
      queryHandler p now fuel ctx request st = some ⟨Outcome.panic, [], st⟩) ∧
    ((∀ text, request.Arguments "program" ≠ some (GoValue.str text)) →
      execHandler p ctx request st = ⟨Outcome.panic, [], st⟩) ∧
    (request.Arguments "query" = some (GoValue.str "") →
      ∀ run, queryHandler p now fuel ctx request st = some run →
        run.outcome ≠ Outcome.panic ∧
        ∃ opened rest, run.calls = Call.withTimeout ctx (15 * Second) ::
          Call.queryContext (WithTimeout now ctx (15 * Second)) "" opened :: rest) ∧
    (request.Arguments "program" = some (GoValue.str "") →
      (execHandler p ctx request st).outcome ≠ Outcome.panic ∧
      (execHandler p ctx request st).calls = [Call.execContext prologCtx ""]) := by
  refine ⟨?_, ?_, ?_, ?_⟩
  · intro h
    unfold queryHandler
    split
    · next query heq => exact absurd heq (h query)
    · rfl
  · intro h
    unfold execHandler
    split
    · next program heq => exact absurd heq (h program)
    · rfl
  · intro harg run hrun
    rcases queryHandler_cases p now fuel ctx _ request "" st run rfl harg hrun with
      ⟨err, st1, ho⟩ | ⟨st1, sols, err, stEnd, ho, hs, hf⟩ |
      ⟨st1, sols, err, stEnd, ho, he, hf, herr⟩ | ⟨st1, sols, stEnd, ho, he, hf, herr⟩
    · rw [queryHandler_open_failed p now fuel ctx _ request "" st st1 err rfl harg ho] at hrun
      simp only [Option.some.injEq] at hrun
      subst hrun
      exact ⟨by simp, _, _, rfl⟩
    · rw [queryHandler_scan_failed p now fuel ctx _ request "" st st1 stEnd sols err rfl harg
        ho hs hf] at hrun
      simp only [Option.some.injEq] at hrun
      subst hrun
      exact ⟨by simp, _, _, rfl⟩
    · rw [queryHandler_iteration_failed p now fuel ctx _ request "" st st1 stEnd sols err rfl
        harg ho he hf herr] at hrun
      simp only [Option.some.injEq] at hrun
      subst hrun
      exact ⟨by simp, _, _, rfl⟩
    · rw [queryHandler_completed p now fuel ctx _ request "" st st1 stEnd sols rfl harg ho he
        hf herr] at hrun
      simp only [Option.some.injEq] at hrun
      subst hrun
      exact ⟨by simp, _, _, rfl⟩
  · intro harg
    unfold execHandler
    rw [harg]
    simp only
    rcases p.ExecContext prologCtx "" st with ⟨oerr, st1⟩
    cases oerr <;> simp

/-- Witness for C5, amended: a request without arguments on the scripted engine. -/
theorem malformed_argument_panics_before_engine_witness :
    queryHandler (scriptEngine none none none) 0 1 Context.Background emptyRequest
      [Except.ok [("X", GoValue.int 1)]] =
      some ⟨Outcome.panic, [], [Except.ok [("X", GoValue.int 1)]]⟩ :=
  (malformed_argument_panics_before_engine (scriptEngine none none none) 0 1 Context.Background
    emptyRequest [Except.ok [("X", GoValue.int 1)]]).1 (by intro text h; simp [emptyRequest] at h)

end Arguments

/-! ## The exec handler: results -/

section Exec

variable {σ : Type}

/-- C7: for every program text the exec handler makes exactly one call, the
submission of that text to the engine, and leaves the engine in the state that call
produced; it returns the confirmation text with a nil error exactly when the engine
returned no error, and otherwise a nil result with the engine's own error. -/
theorem exec_submits_once (p : Engine σ) (ctx : Context) (request : CallToolRequest)
    (program : String) (st : σ)
    (harg : request.Arguments "program" = some (GoValue.str program)) :
    (execHandler p ctx request st).calls = [Call.execContext prologCtx program] ∧
    (execHandler p ctx request st).state = (p.ExecContext prologCtx program st).2 ∧
    ((execHandler p ctx request st).outcome =
        Outcome.ret (some "Program executed successfully") none ↔
      (p.ExecContext prologCtx program st).1 = none) ∧
    (∀ err, (p.ExecContext prologCtx program st).1 = some err →
      (execHandler p ctx request st).outcome = Outcome.ret none (some err)) := by
  unfold execHandler
  rw [harg]
  simp only
  rcases p.ExecContext prologCtx program st with ⟨oerr, st1⟩
  cases oerr <;> simp

/-- Witness for C7: the scripted engine rejecting a program. -/
theorem exec_submits_once_witness :
    (execHandler (scriptEngine none none (some (GoError.errorString "syntax error")))
      Context.Background (requestWith "program" (GoValue.str "foo(")) []).outcome =
      Outcome.ret none (some (GoError.errorString "syntax error")) :=
  (exec_submits_once (scriptEngine none none (some (GoError.errorString "syntax error")))
    Context.Background (requestWith "program" (GoValue.str "foo(")) "foo(" [] rfl).2.2.2 _ rfl

/-- C10: for every program text, engine state and any two request contexts, the exec
handler makes one and the same call on the engine, `ExecContext` with the background
context `prologCtx` and the program, whatever the request context; the two runs are
equal, their outcome and final state being those of that one call; and the context
passed has no deadline and is not done. -/
theorem exec_ignores_request_context (p : Engine σ) (ctx1 ctx2 : Context)
    (request : CallToolRequest) (program : String) (st : σ)
    (harg : request.Arguments "program" = some (GoValue.str program)) :
    (execHandler p ctx1 request st).calls = [Call.execContext Context.Background program] ∧
    (execHandler p ctx2 request st).calls = [Call.execContext Context.Background program] ∧
    execHandler p ctx1 request st = execHandler p ctx2 request st ∧
    (execHandler p ctx1 request st).outcome =
      (match (p.ExecContext Context.Background program st).1 with
        | some err => Outcome.ret none (some err)
        | none => Outcome.ret (some "Program executed successfully") none) ∧
    (execHandler p ctx1 request st).state = (p.ExecContext Context.Background program st).2 ∧
    prologCtx = Context.Background ∧
    Context.Background.deadline = none ∧ Context.Background.done = false := by
  have hcalls : ∀ ctx, (execHandler p ctx request st).calls =
      [Call.execContext Context.Background program] := by
    intro ctx
    unfold execHandler
    rw [harg]
    simp only [prologCtx]
    rcases p.ExecContext Context.Background program st with ⟨oerr, st1⟩
    cases oerr <;> rfl
  refine ⟨hcalls ctx1, hcalls ctx2, rfl, ?_, ?_, rfl, rfl, rfl⟩
  · unfold execHandler
    rw [harg]
    simp only [prologCtx]
    rcases p.ExecContext Context.Background program st with ⟨oerr, st1⟩
    cases oerr <;> rfl
  · unfold execHandler
    rw [harg]
    simp only [prologCtx]
    rcases p.ExecContext Context.Background program st with ⟨oerr, st1⟩
    cases oerr <;> rfl

/-- Witness for C10: a request context that is already done and past its deadline,
against the background context. -/
theorem exec_ignores_request_context_witness :
    (execHandler (scriptEngine none none none) ⟨some 0, true⟩
      (requestWith "program" (GoValue.str "foo(a).")) []).calls =
      [Call.execContext Context.Background "foo(a)."] :=
  (exec_ignores_request_context (scriptEngine none none none) ⟨some 0, true⟩ Context.Background
    (requestWith "program" (GoValue.str "foo(a).")) "foo(a)." [] rfl).1

end Exec

/-! ## The discover handler: results -/

section Discover

variable {K : Type}

/-- With a method `String()` that takes no argument and returns a string, the
descriptor of a key is that string. -/
theorem procString_of_method (kt : KeyType K) (m : Method K) (render : K → String)
    (hmeth : kt.StringMethod = some m) (hin : m.NumIn = 0) (hvar : m.IsVariadic = false)
    (hstr : ∀ k, ∃ rest, m.Results k = GoValue.str (render k) :: rest) (k : K) :
    procString kt k = some (render k) := by
  obtain ⟨rest, hk⟩ := hstr k
  simp [procString, hmeth, Method.CallNil, hin, hvar, hk]

/-- The loop gathers the descriptor of each key, in iteration order. -/
theorem collectPredicates_of_method (kt : KeyType K) (m : Method K) (render : K → String)
    (hmeth : kt.StringMethod = some m) (hin : m.NumIn = 0) (hvar : m.IsVariadic = false)
    (hstr : ∀ k, ∃ rest, m.Results k = GoValue.str (render k) :: rest) (keys : List K) :
    ∀ predicates, collectPredicates kt keys predicates = some (predicates ++ keys.map render) := by
  induction keys with
  | nil => intro predicates; simp [collectPredicates]
  | cons k ks ih =>
    intro predicates
    simp [collectPredicates, procString_of_method kt m render hmeth hin hvar hstr k, ih]

/-- The run of the discover handler once the table is located: the descriptors are
those of the keys read at the offset of the `StructField` from the base value. -/
theorem discoverHandler_of_locates (kt : KeyType K) (v base table : Value K) (offset : Nat)
    (m : Method K) (render : K → String)
    (hloc : Locates v base table) (haddr : base.CanAddr = true)
    (hfield : base.TypeFieldByName "procedures" = Lookup.valid offset)
    (hmap : table.Kind = Kind.map)
    (hmeth : kt.StringMethod = some m) (hin : m.NumIn = 0) (hvar : m.IsVariadic = false)
    (hstr : ∀ k, ∃ rest, m.Results k = GoValue.str (render k) :: rest) :
    (discoverHandler kt v).1 =
      Outcome.ret (some (sprintStrings ((base.MapAt offset).map render))) none := by
  have hk : (Value.NewAtElem table base offset).Kind = Kind.map := by
    simpa [Value.NewAtElem, Value.Kind] using hmap
  have hr : (Value.NewAtElem table base offset).MapRange = base.MapAt offset := rfl
  have hc := collectPredicates_of_method kt m render hmeth hin hvar hstr (base.MapAt offset) []
  rcases hloc with ⟨h1, hb⟩ | ⟨h1, h2, h3⟩
  · subst hb
    simp [discoverHandler, h1, discoverFrom, haddr, hfield, hk, hr, hc]
  · simp [discoverHandler, h1, h2, h3, discoverFrom, haddr, hfield, hk, hr, hc]

/-- When the table lies at the offset of its `StructField` from the base value, the
discover handler lists one descriptor per registered key: the length is the number
of keys and, as a multiset, the sequence is the image of the key set. -/
theorem discover_lists_registered_keys (kt : KeyType K) (v base table : Value K)
    (offset : Nat) (registered : Finset K) (m : Method K) (render : K → String)
    (hloc : Locates v base table) (haddr : base.CanAddr = true)
    (hfield : base.TypeFieldByName "procedures" = Lookup.valid offset)
    (hlayout : base.MapAt offset = table.MapRange)
    (hmap : table.Kind = Kind.map)
    (hkeys : (↑table.MapRange : Multiset K) = registered.val)
    (hmeth : kt.StringMethod = some m) (hin : m.NumIn = 0) (hvar : m.IsVariadic = false)
    (hstr : ∀ k, ∃ rest, m.Results k = GoValue.str (render k) :: rest) :
    ∃ ds : List String,
      (discoverHandler kt v).1 = Outcome.ret (some (sprintStrings ds)) none ∧
      ds.length = registered.card ∧
      (↑ds : Multiset String) = registered.val.map render ∧
      ds = table.MapRange.map render := by
  refine ⟨table.MapRange.map render, ?_, ?_, ?_, rfl⟩
  · rw [discoverHandler_of_locates kt v base table offset m render hloc haddr hfield hmap hmeth
      hin hvar hstr, hlayout]
  · rw [List.length_map, Finset.card_def, ← hkeys, Multiset.coe_card]
  · rw [← hkeys, Multiset.map_coe]

/-- The handler makes no lookup after the addressability check. -/
theorem discoverFrom_calls (kt : KeyType K) (base field : Value K) (calls : List Call) :
    (discoverFrom kt base field calls).2 = calls := by
  unfold discoverFrom
  split_ifs
  · rfl
  · split
    · rfl
    · rfl
    · simp only
      split_ifs
      · split <;> rfl
      · rfl

/-- C8, the code at the failing input: on an engine value whose struct embeds `VM`
after another map field, the table `procedures` is found with the registered key
`foo/1`, yet the handler adds the offset of the field inside `VM` to the address of the
outer struct, reads the other map, and returns `[decoy/9]`; on the value that embeds
`VM` first the same handler returns `[foo/1]`. -/
theorem discover_reads_table_at_wrong_offset :
    (∃ table, (decoyValue [("foo", 1)]).FieldByName "procedures" = Lookup.valid table ∧
      table.MapRange = [("foo", 1)]) ∧
    (decoyValue [("foo", 1)]).TypeFieldByName "procedures" = Lookup.valid 0 ∧
    (decoyValue [("foo", 1)]).MapAt 0 = [("decoy", 9)] ∧
    (decoyValue [("foo", 1)]).MapAt 8 = [("foo", 1)] ∧
    (discoverHandler indicatorKeys (decoyValue [("foo", 1)])).1 =
      Outcome.ret (some "[decoy/9]") none ∧
    (discoverHandler indicatorKeys (interpreterValue [("foo", 1)])).1 =
      Outcome.ret (some "[foo/1]") none :=
  ⟨⟨_, rfl, rfl⟩, rfl, rfl, rfl, by decide, by decide⟩

/-- Counterexample to C9: on an engine value where `procedures` is not found directly
the handler looks a second time, through the field `VM`, and succeeds with the table
found there; and where no table exists at all it has made that second lookup before
it fails. -/
theorem discover_attempts_fallback :
    discoverHandler indicatorKeys (shadowedValue [("foo", 1)]) =
      (Outcome.ret (some "[foo/1]") none,
        [Call.fieldByName ["procedures"], Call.fieldByName ["VM"],
          Call.fieldByName ["VM", "procedures"]]) ∧
    discoverHandler indicatorKeys bareValue =
      (Outcome.ret none (some (GoError.errorString
        "could not find 'procedures' field (tried promotion and explicit 'VM' embed)")),
        [Call.fieldByName ["procedures"], Call.fieldByName ["VM"]]) := by
  decide

/-- C9, amended: when the first lookup of `procedures` on the engine value finds
nothing, discover makes a second lookup through the field `VM`; it returns a nil
result with a plain error when `VM` is absent or is a struct without a `procedures`
field, it panics when `VM` is not a struct, and otherwise it goes on with the table
found inside `VM`. -/
theorem discover_without_direct_field (kt : KeyType K) (v : Value K)
    (hdirect : v.FieldByName "procedures" = Lookup.zero) :
    Call.fieldByName ["VM"] ∈ (discoverHandler kt v).2 ∧
    (v.FieldByName "VM" = Lookup.zero →
      (discoverHandler kt v).1 = Outcome.ret none (some (GoError.errorString
        "could not find 'procedures' field (tried promotion and explicit 'VM' embed)"))) ∧
    (∀ vm, v.FieldByName "VM" = Lookup.valid vm →
      vm.FieldByName "procedures" = Lookup.zero →
      (discoverHandler kt v).1 = Outcome.ret none (some (GoError.errorString
        "found embedded 'VM' field, but not 'procedures' field within it"))) ∧
    (∀ vm, v.FieldByName "VM" = Lookup.valid vm →
      (vm.Kind ≠ Kind.struct ↔ (discoverHandler kt v).1 = Outcome.panic ∧
        vm.FieldByName "procedures" = Lookup.panics)) ∧
    (∀ vm table, v.FieldByName "VM" = Lookup.valid vm →
      vm.FieldByName "procedures" = Lookup.valid table →
      discoverHandler kt v = discoverFrom kt vm table
        [Call.fieldByName ["procedures"], Call.fieldByName ["VM"],
          Call.fieldByName ["VM", "procedures"]]) := by
  refine ⟨?_, ?_, ?_, ?_, ?_⟩
  · unfold discoverHandler
    rw [hdirect]
    simp only
    cases hvm : v.FieldByName "VM" with
    | panics => simp
    | zero => simp
    | valid vm =>
      simp only
      cases hp : vm.FieldByName "procedures" with
      | panics => simp
      | zero => simp
      | valid table =>
        simp only
        rw [discoverFrom_calls]
        simp
  · intro hvm
    simp [discoverHandler, hdirect, hvm]
  · intro vm hvm hp
    simp [discoverHandler, hdirect, hvm, hp]
  · intro vm hvm
    obtain ⟨typeName, kind, canAddr, fields, memory, mapKeys⟩ := vm
    constructor
    · intro hk
      have hp : (Value.mk typeName kind canAddr fields memory mapKeys).FieldByName "procedures" =
          Lookup.panics := by
        simp only [Value.Kind] at hk
        simp [Value.FieldByName, hk]
      exact ⟨by simp [discoverHandler, hdirect, hvm, hp], hp⟩
    · rintro ⟨_, hp⟩ hk
      simp only [Value.Kind] at hk
      subst hk
      simp only [Value.FieldByName, if_true] at hp
      split at hp <;> simp at hp
  · intro vm table hvm hp
    simp [discoverHandler, hdirect, hvm, hp]

/-- Witness for C9, amended: the engine value without any table. -/
theorem discover_without_direct_field_witness :
    Call.fieldByName ["VM"] ∈ (discoverHandler indicatorKeys bareValue).2 :=
  (discover_without_direct_field indicatorKeys bareValue rfl).1

end Discover

end PrologMcp
